import Mathlib

/-!
Shallow embedding of the EKG-Plot-SerialMonitor repository's streaming
decode-and-windowing pipeline, and proofs of its specified properties.

Sources embedded:
* src/main1.py  — 12-channel WebSocket visualizer
    (DataProcessor.process_value, DataProcessor.parse_hex_line,
     WebSocketThread.handle_client, EKGPlotWidget.add_data_point,
     EKGPlotWidget.update_plot, deque(maxlen=N) buffers)
* src/mainSingle.py — single-channel batched WebSocket visualizer
    (DataProcessor.process_value, DataProcessor.parse_hex_data,
     WebSocketThread.handle_client, SingleChannelPlotWidget.add_data_batch,
     SingleChannelPlotWidget.update_plot)
* src/main.py — dual-channel serial visualizer
    (RealTimeEKGPlotter.read_serial_data, RealTimeEKGPlotter.update_plot,
     deque(maxlen=buffer_size) buffers)

Lines are modelled as lists of characters.  Python integer parsing
(int(s, 16), json integer tokens) is modelled faithfully for the shapes the
protocol uses: surrounding whitespace, an optional sign, an optional 0x/0X
base prefix for base 16, then a non-empty run of digits (Python's optional
underscore digit separators are not modelled; no claim involves them).
Wall-clock timestamps and the 0.1-second batch interval are modelled with
exact rational arithmetic.
-/

namespace EKG

/-- Value of one hexadecimal digit character, as accepted by Python
int(s, 16): 0-9 (codepoints 48-57), a-f (97-102), A-F (65-70). -/
def hexDigitVal (c : Char) : Option Nat :=
  let n := c.toNat
  if 48 ≤ n ∧ n ≤ 57 then some (n - 48)
  else if 97 ≤ n ∧ n ≤ 102 then some (n - 87)
  else if 65 ≤ n ∧ n ≤ 70 then some (n - 55)
  else none

/-- Value of one decimal digit character (codepoints 48-57). -/
def decDigitVal (c : Char) : Option Nat :=
  let n := c.toNat
  if 48 ≤ n ∧ n ≤ 57 then some (n - 48) else none

/-- Accumulating digit-run parser: fails on the first character that is not
a digit of the given digit alphabet. -/
def digitsAux (dv : Char → Option Nat) (base : Nat) : Nat → List Char → Option Nat
  | acc, [] => some acc
  | acc, c :: cs =>
    match dv c with
    | none => none
    | some d => digitsAux dv base (acc * base + d) cs

/-- Non-empty run of base-16 digits. -/
def parseHexNat (cs : List Char) : Option Nat :=
  match cs with
  | [] => none
  | _ => digitsAux hexDigitVal 16 0 cs

/-- Non-empty run of base-10 digits. -/
def parseDecNat (cs : List Char) : Option Nat :=
  match cs with
  | [] => none
  | _ => digitsAux decDigitVal 10 0 cs

/-- Python str.strip(): drop leading and trailing whitespace characters. -/
def stripChars (cs : List Char) : List Char :=
  ((cs.dropWhile Char.isWhitespace).reverse.dropWhile Char.isWhitespace).reverse

/-- Optional 0x / 0X base marker accepted by Python int(s, 16). -/
def strip0x : List Char → List Char
  | '0' :: c :: rest => if c = 'x' ∨ c = 'X' then rest else '0' :: c :: rest
  | cs => cs

/-- Python int(s, 16) on one token: surrounding whitespace, optional sign,
optional 0x/0X marker, then a non-empty run of hex digits; anything else
raises ValueError, modelled as none. -/
def pyIntHex (t : List Char) : Option Int :=
  match stripChars t with
  | '-' :: rest => (parseHexNat (strip0x rest)).map (fun n => -(n : Int))
  | '+' :: rest => (parseHexNat (strip0x rest)).map (fun n => (n : Int))
  | s => (parseHexNat (strip0x s)).map (fun n => (n : Int))

/-- One integer token of a JSON array: surrounding whitespace, optional
minus sign, then a non-empty run of decimal digits. -/
def parseDecInt (t : List Char) : Option Int :=
  match stripChars t with
  | '-' :: rest => (parseDecNat rest).map (fun n => -(n : Int))
  | s => (parseDecNat s).map (fun n => (n : Int))

/-- Python s.split(for a comma): the comma-separated pieces of a character
list; the empty list yields one empty piece, like Python. -/
def splitComma : List Char → List (List Char)
  | [] => [[]]
  | c :: cs =>
    let r := splitComma cs
    if c = ',' then [] :: r
    else (c :: r.headD []) :: r.tail

/-- DataProcessor.process_value (src/main1.py lines 33-45 and
src/mainSingle.py lines 31-43): clamp a raw value to the 12-bit ADC range
0-4095. -/
def process_value (raw_value : Int) : Int :=
  if raw_value < 0 then 0
  else if raw_value > 4095 then 4095
  else raw_value

/-- Run an Option-valued function over a list, failing the whole run on the
first failure — the semantics of a Python for-loop whose body may raise,
wrapped in try/except. -/
def parseAll (f : α → Option β) : List α → Option (List β)
  | [] => some []
  | a :: as => (f a).bind fun b => (parseAll f as).map fun bs => b :: bs

/-- Number of comma characters in a line; a line always splits into this
many pieces plus one. -/
def commaCount : List Char → Nat
  | [] => 0
  | c :: cs => (if c = ',' then 1 else 0) + commaCount cs

/-- DataProcessor.parse_hex_line (src/main1.py lines 47-69): strip the
line, split on commas, require exactly 12 tokens, convert each token with
int(tok, 16) and clamp it; any conversion failure discards the whole
line. -/
def parse_hex_line (cs : List Char) : Option (List Int) :=
  if (splitComma (stripChars cs)).length ≠ 12 then none
  else parseAll (fun t => (pyIntHex t).map process_value) (splitComma (stripChars cs))

/-- Token loop of DataProcessor.parse_hex_data (src/mainSingle.py lines
45-66): tokens that are empty after stripping are skipped; any other token
is hex-converted and clamped; a conversion failure aborts the whole
line. -/
def parseTokensSingle : List (List Char) → Option (List Int)
  | [] => some []
  | t :: ts =>
    if stripChars t = [] then parseTokensSingle ts
    else
      match pyIntHex t with
      | none => none
      | some v => (parseTokensSingle ts).map (fun vs => process_value v :: vs)

/-- DataProcessor.parse_hex_data (src/mainSingle.py lines 45-66): strip the
line, split on commas, convert the non-empty tokens; on any conversion
failure the except branch returns the empty list. -/
def parse_hex_data (cs : List Char) : List Int :=
  (parseTokensSingle (splitComma (stripChars cs))).getD []

/-- One append to a collections.deque with maxlen N (the channel buffers of
all three variants): append on the right, evicting from the left whatever
exceeds the capacity. -/
def dequePush (N : Nat) (buf : List α) (x : α) : List α :=
  let b := buf ++ [x]
  b.drop (b.length - N)

/-- Fold a sequence of pushes into a deque with maxlen N. -/
def pushMany (N : Nat) (buf : List α) (xs : List α) : List α :=
  xs.foldl (dequePush N) buf

/-- Per-line ingest of the 12-channel variant on the selected channel's
value buffer: WebSocketThread.handle_client (src/main1.py lines 126-133)
emits a parsed line only when it is a 12-value frame, and
EKGPlotWidget.add_data_point (lines 198-211) appends
channel_data[selected_channel] to the deque. -/
def main1Step (sel N : Nat) (buf : List Int) (cs : List Char) : List Int :=
  match parse_hex_line cs with
  | none => buf
  | some vs => if vs.length = 12 then dequePush N buf (vs.getD sel 0) else buf

/-- Per-message ingest of the single-channel batched variant on the value
buffer: WebSocketThread.handle_client (src/mainSingle.py lines 124-132)
skips blank messages and empty parse results, and
SingleChannelPlotWidget.add_data_batch (lines 197-210) appends every value
of an accepted batch to the deque. -/
def singleStep (N : Nat) (buf : List Int) (cs : List Char) : List Int :=
  if stripChars cs = [] then buf
  else if parse_hex_data cs = [] then buf
  else pushMany N buf (parse_hex_data cs)

/-- Emission decision of WebSocketThread.handle_client
(src/mainSingle.py lines 124-132): the decoded batch handed to
add_data_batch, or none when the message is blank or decodes to the empty
list. -/
def handleSingleMessage (cs : List Char) : Option (List Int) :=
  if stripChars cs = [] then none
  else if parse_hex_data cs = [] then none
  else some (parse_hex_data cs)

/-- Python json.loads restricted to the flat integer-array shape the
dual-channel protocol uses: an opening bracket, comma-separated integer
tokens, a closing bracket; whitespace-only interiors give the empty
array. -/
def jsonIntArray (cs : List Char) : Option (List Int) :=
  match cs with
  | '[' :: rest =>
    if rest.getLastD ' ' = ']' then
      if stripChars rest.dropLast = [] then some []
      else parseAll parseDecInt (splitComma rest.dropLast)
    else none
  | _ => none

/-- One-line body of RealTimeEKGPlotter.read_serial_data
(src/main.py lines 77-106) acting on the pair of channel value buffers:
blank lines and lines starting with a hash mark are skipped; a line of the
bracketed shape is JSON-decoded, and when it holds exactly 2 values the
code appends data[0] and data[1] to the deques as they are — no clamping
is applied in this variant. -/
def serial_line_step (N : Nat) (st : List Int × List Int) (rawLine : List Char) :
    List Int × List Int :=
  if stripChars rawLine = [] ∨ (stripChars rawLine).headD ' ' = '#' then st
  else if (stripChars rawLine).headD ' ' = '[' ∧ (stripChars rawLine).getLastD ' ' = ']' then
    match jsonIntArray (stripChars rawLine) with
    | some data =>
      if data.length = 2 then
        (dequePush N st.1 (data.getD 0 0), dequePush N st.2 (data.getD 1 0))
      else st
    | none => st
  else st

/-- Timestamp loop of SingleChannelPlotWidget.add_data_batch
(src/mainSingle.py lines 197-210): sample i of the batch is stamped
current_time + i * 0.1 / n; arithmetic is modelled exactly over the
rationals. -/
def interpAux (T : ℚ) (n : Nat) : Nat → List Int → List (ℚ × Int)
  | _, [] => []
  | i, v :: vs => (T + (i : ℚ) * (1 / 10) / (n : ℚ), v) :: interpAux T n (i + 1) vs

/-- SingleChannelPlotWidget.add_data_batch (src/mainSingle.py lines
197-210), restricted to the (timestamp, value) pairs it appends. -/
def add_data_batch (T : ℚ) (values : List Int) : List (ℚ × Int) :=
  interpAux T values.length 0 values

/-- Window x-coordinates produced by update_plot (src/main1.py lines
222-228 and src/mainSingle.py lines 221-227): each timestamp is shifted so
the most recent sample lands on the right edge of the 10-second window. -/
def xSeries (times : List ℚ) : List ℚ :=
  times.map (fun t => t - times.getLastD 0 + 10)

/-- Smallest value of an integer buffer (numpy min over a non-empty
array). -/
def listMin (l : List Int) : Int :=
  l.foldl min (l.headD 0)

/-- Largest value of an integer buffer (numpy max over a non-empty
array). -/
def listMax (l : List Int) : Int :=
  l.foldl max (l.headD 0)

/-- Redraw data computed by one update_plot call: the line series and the
y-axis limits it sets (none when the guard that needs data left them
untouched). -/
structure PlotFrame where
  x_series : List ℚ
  y_series : List Int
  y_lim : Option (ℚ × ℚ)
deriving DecidableEq

/-- Auto-scaled y-limits of EKGPlotWidget.update_plot (src/main1.py lines
233-237): pad by 10 percent of the data span, or by 200 when the span is
degenerate. -/
def yLimAuto (values : List Int) : ℚ × ℚ :=
  if listMax values > listMin values then
    (((listMin values : Int) : ℚ) - (((listMax values : Int) : ℚ) - ((listMin values : Int) : ℚ)) * (1 / 10),
     ((listMax values : Int) : ℚ) + (((listMax values : Int) : ℚ) - ((listMin values : Int) : ℚ)) * (1 / 10))
  else
    (((listMin values : Int) : ℚ) - 200, ((listMax values : Int) : ℚ) + 200)

/-- EKGPlotWidget.update_plot (src/main1.py lines 217-243): snapshots of
fewer than 2 points return without producing any redraw data; otherwise the
x-series is the right-aligned window and the y-axis is auto-scaled when the
value snapshot is non-empty. -/
def update_plot (times : List ℚ) (values : List Int) : Option PlotFrame :=
  if times.length < 2 then none
  else
    some { x_series := xSeries times
           y_series := values
           y_lim := if 0 < values.length then some (yLimAuto values) else none }

/-- SingleChannelPlotWidget.update_plot (src/mainSingle.py lines 216-237):
same guard and x-series, with the fixed 0-4095 y-axis. -/
def update_plot_single (times : List ℚ) (values : List Int) : Option PlotFrame :=
  if times.length < 2 then none
  else
    some { x_series := xSeries times
           y_series := values
           y_lim := some (0, 4095) }

/-- Axis ranges computed by RealTimeEKGPlotter.update_plot
(src/main.py lines 108-134): the auto-scrolling x-window and the
margin-200 y-limits of both channels. -/
structure SerialFrame where
  x_lim : ℚ × ℚ
  y_lims : Option ((ℚ × ℚ) × (ℚ × ℚ))
deriving DecidableEq

/-- RealTimeEKGPlotter.update_plot (src/main.py lines 108-134): snapshots
of fewer than 2 points return the untouched lines without deriving any
range; otherwise the x-window scrolls with the newest timestamp and each
channel's y-range is its data extent padded by 200. -/
def update_plot_serial (times : List ℚ) (ch0 ch1 : List Int) : Option SerialFrame :=
  if times.length < 2 then none
  else
    some { x_lim := (max 0 (times.getLastD 0 - 10), times.getLastD 0 + 1)
           y_lims :=
             if 0 < ch0.length then
               some ((((listMin ch0 : Int) : ℚ) - 200, ((listMax ch0 : Int) : ℚ) + 200),
                     (((listMin ch1 : Int) : ℚ) - 200, ((listMax ch1 : Int) : ℚ) + 200))
             else none }

end EKG

namespace EKG

/-- C6: process_value always lands in the 12-bit range 0-4095, is the
identity on values already in that range, and is idempotent. -/
theorem process_value_clamp_c6 (t : Int) :
    (0 ≤ process_value t ∧ process_value t ≤ 4095) ∧
    (0 ≤ t → t ≤ 4095 → process_value t = t) ∧
    process_value (process_value t) = process_value t := by
  by_cases h1 : t < 0
  · simp [process_value, h1]
  · by_cases h2 : t > 4095
    · simp [process_value, h1, h2]
    · simp only [process_value, if_neg h1, if_neg h2]
      exact ⟨⟨by omega, by omega⟩, by intros; trivial, by simp [if_neg h1, if_neg h2]⟩

/-- C6 witness: the clamp theorem instantiated at the in-range value 100
and at the out-of-range value -7. -/
theorem process_value_clamp_c6_witness :
    process_value 100 = 100 ∧
    process_value (process_value (-7)) = process_value (-7) :=
  ⟨(process_value_clamp_c6 100).2.1 (by decide) (by decide),
   (process_value_clamp_c6 (-7)).2.2⟩

/-- Closed form of a run of deque pushes: starting from a buffer within
capacity, the result is the concatenation with everything beyond the last N
entries dropped from the front. -/
theorem pushMany_eq {α : Type _} (N : Nat) (xs : List α) :
    ∀ buf : List α, buf.length ≤ N →
      pushMany N buf xs = (buf ++ xs).drop (buf.length + xs.length - N) := by
  induction xs with
  | nil =>
    intro buf h
    simp [pushMany, Nat.sub_eq_zero_of_le h]
  | cons x xs ih =>
    intro buf h
    have hstep : pushMany N buf (x :: xs) = pushMany N (dequePush N buf x) xs := rfl
    have hlen : (dequePush N buf x).length ≤ N := by
      simp [dequePush]; omega
    rw [hstep, ih _ hlen]
    simp only [dequePush]
    rw [← List.drop_append_of_le_length (Nat.sub_le _ _), List.drop_drop]
    have hApp : (buf ++ [x]) ++ xs = buf ++ x :: xs := by simp
    rw [hApp]
    congr 1
    simp only [List.length_drop, List.length_append, List.length_cons,
      List.length_nil]
    omega

/-- C3: a rolling channel buffer of capacity N (a deque with maxlen N, as
in src/main1.py lines 159-162 and src/main.py lines 24-27) that receives
M > N pushes in order holds exactly the last N pushed samples in push
order, and its length never exceeds N after any prefix of the pushes. -/
theorem rolling_buffer_fifo_c3 {α : Type _} (N : Nat) (s : List α)
    (h : N < s.length) :
    pushMany N ([] : List α) s = s.drop (s.length - N) ∧
    (pushMany N ([] : List α) s).length = N ∧
    ∀ k : Nat, (pushMany N ([] : List α) (s.take k)).length ≤ N := by
  have base : ∀ t : List α, pushMany N [] t = t.drop (t.length - N) := by
    intro t
    simpa using pushMany_eq N t [] (by simp)
  refine ⟨base s, ?_, ?_⟩
  · rw [base s]
    simp only [List.length_drop]
    omega
  · intro k
    rw [base (s.take k)]
    simp only [List.length_drop]
    omega

/-- C3 witness: a capacity-3 buffer fed 10, 20, 30, 40 snapshots to
20, 30, 40, and after only two pushes its length is within capacity. -/
theorem rolling_buffer_fifo_c3_witness :
    pushMany 3 ([] : List Int) [10, 20, 30, 40] = [20, 30, 40] ∧
    (pushMany 3 ([] : List Int) ([10, 20, 30, 40].take 2)).length ≤ 3 := by
  have h := rolling_buffer_fifo_c3 3 ([10, 20, 30, 40] : List Int) (by decide)
  exact ⟨h.1.trans (by decide), h.2.2 2⟩

theorem commaCount_append (l₁ l₂ : List Char) :
    commaCount (l₁ ++ l₂) = commaCount l₁ + commaCount l₂ := by
  induction l₁ with
  | nil => simp [commaCount]
  | cons c cs ih => simp [commaCount, ih]; omega

theorem commaCount_reverse (l : List Char) :
    commaCount l.reverse = commaCount l := by
  induction l with
  | nil => rfl
  | cons c cs ih =>
    by_cases hc : c = ','
    · simp [commaCount, List.reverse_cons, commaCount_append, ih, hc]
      omega
    · simp [commaCount, List.reverse_cons, commaCount_append, ih, hc]

theorem commaCount_dropWhile (l : List Char) :
    commaCount (l.dropWhile Char.isWhitespace) = commaCount l := by
  induction l with
  | nil => rfl
  | cons c cs ih =>
    by_cases hw : Char.isWhitespace c
    · have hc : ¬(c = ',') := by
        intro h
        subst h
        exact absurd hw (by decide)
      simp [List.dropWhile_cons, hw, ih, commaCount, hc]
    · simp [List.dropWhile_cons, hw]

theorem commaCount_stripChars (l : List Char) :
    commaCount (stripChars l) = commaCount l := by
  simp [stripChars, commaCount_reverse, commaCount_dropWhile]

theorem splitComma_ne_nil (cs : List Char) : splitComma cs ≠ [] := by
  cases cs with
  | nil => simp [splitComma]
  | cons c cs =>
    simp only [splitComma]
    split <;> simp

theorem splitComma_length (cs : List Char) :
    (splitComma cs).length = commaCount cs + 1 := by
  induction cs with
  | nil => rfl
  | cons c cs ih =>
    by_cases hc : c = ','
    · simp [splitComma, hc, commaCount, ih]
      omega
    · have hne := splitComma_ne_nil cs
      cases h : splitComma cs with
      | nil => exact absurd h hne
      | cons t ts =>
        rw [h] at ih
        simp [splitComma, hc, commaCount, h] at ih ⊢
        omega

/-- Stripping the surrounding whitespace of a line does not change how many
comma-separated tokens it splits into. -/
theorem splitComma_stripChars_length (cs : List Char) :
    (splitComma (stripChars cs)).length = (splitComma cs).length := by
  simp [splitComma_length, commaCount_stripChars]

theorem parseAll_eq_some_of (f : α → Option β) (g : α → β) :
    ∀ l : List α, (∀ a ∈ l, f a = some (g a)) → parseAll f l = some (l.map g) := by
  intro l
  induction l with
  | nil => intro _; rfl
  | cons a as ih =>
    intro h
    have ha : f a = some (g a) := h a (List.mem_cons_self a as)
    have hrest := ih fun x hx => h x (List.mem_cons_of_mem a hx)
    simp [parseAll, ha, hrest]

theorem parseAll_eq_none_of (f : α → Option β) :
    ∀ (l : List α) (a : α), a ∈ l → f a = none → parseAll f l = none := by
  intro l
  induction l with
  | nil => intro a ha; simp at ha
  | cons b bs ih =>
    intro a ha hfa
    rcases List.mem_cons.mp ha with h | h
    · subst h
      simp [parseAll, hfa]
    · cases hfb : f b with
      | none => simp [parseAll, hfb]
      | some v => simp [parseAll, hfb, ih a h hfa]

/-- C1: a line splitting into exactly 12 comma-separated tokens, each of
which int(tok, 16) accepts, decodes to the 12-entry frame holding each
token's base-16 value clamped to 0-4095, in token order; and a line
splitting into any other number of tokens decodes to none (the
channel-count-mismatch failure, no frame).  Token validity is read on the
trimmed line, which the decoder strips first; trimming does not change the
token count (splitComma_stripChars_length). -/
theorem parse_hex_line_c1 (cs : List Char) :
    ((splitComma cs).length = 12 →
      (∀ t ∈ splitComma (stripChars cs), (pyIntHex t).isSome) →
      parse_hex_line cs =
        some ((splitComma (stripChars cs)).map
          (fun t => process_value ((pyIntHex t).getD 0))) ∧
      (splitComma (stripChars cs)).length = 12) ∧
    ((splitComma cs).length ≠ 12 → parse_hex_line cs = none) := by
  constructor
  · intro h12 hok
    have hlen : (splitComma (stripChars cs)).length = 12 := by
      rw [splitComma_stripChars_length]
      exact h12
    refine ⟨?_, hlen⟩
    unfold parse_hex_line
    rw [if_neg (by simp [hlen])]
    apply parseAll_eq_some_of
    intro t ht
    have := hok t ht
    cases h : pyIntHex t with
    | none => rw [h] at this; simp at this
    | some v => simp [h]
  · intro hne
    unfold parse_hex_line
    rw [if_pos]
    rw [splitComma_stripChars_length]
    exact hne

/-- C1 witness: the example line of 12 hex tokens decodes to
2048..2059, and a 2-token line is rejected with no frame. -/
theorem parse_hex_line_c1_witness :
    parse_hex_line ("800,801,802,803,804,805,806,807,808,809,80A,80B".toList) =
      some [2048, 2049, 2050, 2051, 2052, 2053, 2054, 2055, 2056, 2057, 2058, 2059] ∧
    parse_hex_line ("800,801".toList) = none := by
  constructor
  · have h :=
      (parse_hex_line_c1
        ("800,801,802,803,804,805,806,807,808,809,80A,80B".toList)).1
        (by decide) (by decide)
    exact h.1.trans (by decide)
  · exact (parse_hex_line_c1 ("800,801".toList)).2 (by decide)

/-- Failure of the single-channel token loop as soon as some token that is
not skipped fails hex conversion. -/
theorem parseTokensSingle_eq_none (ts : List (List Char)) (t : List Char)
    (ht : t ∈ ts) (hne : stripChars t ≠ []) (hfail : pyIntHex t = none) :
    parseTokensSingle ts = none := by
  induction ts with
  | nil => simp at ht
  | cons b bs ih =>
    rcases List.mem_cons.mp ht with h | h
    · subst h
      simp [parseTokensSingle, hne, hfail]
    · by_cases hb : stripChars b = []
      · simp [parseTokensSingle, hb, ih h]
      · cases hfb : pyIntHex b with
        | none => simp [parseTokensSingle, hb, hfb]
        | some v => simp [parseTokensSingle, hb, hfb, ih h]

/-- C5 counterexample: the line 800, ,801 contains the token consisting of
one space, and Python integer parsing fails on that token; yet the
single-channel decoder (src/mainSingle.py parse_hex_data) returns the
non-empty frame 2048, 2049 and the ingest step pushes both values — so the
claim as stated is false on this variant. -/
theorem malformed_token_c5_counterexample :
    pyIntHex (" ".toList) = none ∧
    parse_hex_data ("800, ,801".toList) = [2048, 2049] ∧
    singleStep 8600 [] ("800, ,801".toList) = ([2048, 2049] : List Int) ∧
    singleStep 8600 [] ("800, ,801".toList) ≠ ([] : List Int) := by
  exact ⟨by decide, by decide, by decide, by decide⟩

/-- C5 amended: a line containing a token that is non-empty after stripping
and fails integer parsing is rejected whole by both decoders — the
12-channel decoder returns none, the single-channel decoder returns the
empty list — and neither variant's ingest step mutates its buffer. -/
theorem malformed_token_no_mutation_c5 (cs : List Char)
    (h : ∃ t ∈ splitComma (stripChars cs), stripChars t ≠ [] ∧ pyIntHex t = none) :
    parse_hex_line cs = none ∧
    (∀ sel N buf, main1Step sel N buf cs = buf) ∧
    parse_hex_data cs = [] ∧
    (∀ N buf, singleStep N buf cs = buf) := by
  obtain ⟨t, ht, hne, hfail⟩ := h
  have hline : parse_hex_line cs = none := by
    unfold parse_hex_line
    by_cases h12 : (splitComma (stripChars cs)).length ≠ 12
    · rw [if_pos h12]
    · rw [if_neg h12]
      exact parseAll_eq_none_of _ _ t ht (by simp [hfail])
  have hdata : parse_hex_data cs = [] := by
    unfold parse_hex_data
    rw [parseTokensSingle_eq_none _ t ht hne hfail]
    rfl
  refine ⟨hline, ?_, hdata, ?_⟩
  · intro sel N buf
    simp [main1Step, hline]
  · intro N buf
    by_cases hs : stripChars cs = []
    · simp [singleStep, hs]
    · simp [singleStep, hs, hdata]

/-- C5 witness: the malformed example line is rejected by both decoders and
leaves both buffers untouched. -/
theorem malformed_token_no_mutation_c5_witness :
    parse_hex_line ("1,2,xyz,4,5,6,7,8,9,10,11,12".toList) = none ∧
    parse_hex_data ("1,2,xyz,4,5,6,7,8,9,10,11,12".toList) = [] ∧
    main1Step 0 400 [5] ("1,2,xyz,4,5,6,7,8,9,10,11,12".toList) = [5] ∧
    singleStep 8600 [5] ("1,2,xyz,4,5,6,7,8,9,10,11,12".toList) = [5] := by
  have h := malformed_token_no_mutation_c5 ("1,2,xyz,4,5,6,7,8,9,10,11,12".toList)
    ⟨"xyz".toList, by decide, by decide, by decide⟩
  exact ⟨h.1, h.2.2.1, h.2.1 0 400 [5], h.2.2.2 8600 [5]⟩

/-- Token loops over tokens that are all whitespace-empty produce the empty
value list. -/
theorem parseTokensSingle_all_empty (ts : List (List Char))
    (h : ∀ t ∈ ts, stripChars t = []) : parseTokensSingle ts = some [] := by
  induction ts with
  | nil => rfl
  | cons b bs ih =>
    have hb : stripChars b = [] := h b (List.mem_cons_self b bs)
    have hrest := ih fun x hx => h x (List.mem_cons_of_mem b hx)
    simp [parseTokensSingle, hb, hrest]

/-- C9: in the single-channel decoder, empty or whitespace-only tokens are
silently skipped — 800,,801 decodes to 2048, 2049 — and a line all of whose
tokens strip to empty decodes to the empty list rather than failing. -/
theorem empty_tokens_skipped_c9 :
    parse_hex_data ("800,,801".toList) = [2048, 2049] ∧
    parse_hex_data (",,,".toList) = [] ∧
    (∀ cs : List Char, (∀ t ∈ splitComma (stripChars cs), stripChars t = []) →
      parse_hex_data cs = []) := by
  refine ⟨by decide, by decide, ?_⟩
  intro cs h
  unfold parse_hex_data
  rw [parseTokensSingle_all_empty _ h]
  rfl

/-- C9 witness: the all-blank-token branch of the theorem applied to a
concrete line of empty and whitespace tokens. -/
theorem empty_tokens_skipped_c9_witness :
    parse_hex_data (",,  ,".toList) = [] :=
  (empty_tokens_skipped_c9).2.2 (",,  ,".toList) (by decide)

/-- C2 counterexample: the dual-channel serial variant appends the decoded
values of the frame between brackets holding -5 and 5000 to its buffers
exactly as decoded — the buffers end up holding -5 and 5000, not the
clamped 0 and 4095 the claim states. -/
theorem dual_clamp_c2_counterexample :
    serial_line_step 2000 ([], []) ("[-5,5000]".toList) = ([-5], [5000]) ∧
    serial_line_step 2000 ([], []) ("[-5,5000]".toList) ≠ ([0], [4095]) := by
  exact ⟨by decide, by decide⟩

/-- C2 amended: every accepted 2-value bracketed decimal frame of the
dual-channel serial variant (src/main.py read_serial_data) is appended to
the channel buffers unclamped, exactly as json decoding produced it; this
variant applies no clamp at all. -/
theorem dual_unclamped_append_c2 (N : Nat) (buf0 buf1 : List Int)
    (line : List Char) (a b : Int)
    (hhead : (stripChars line).headD ' ' = '[')
    (hlast : (stripChars line).getLastD ' ' = ']')
    (hparse : jsonIntArray (stripChars line) = some [a, b]) :
    serial_line_step N (buf0, buf1) line =
      (dequePush N buf0 a, dequePush N buf1 b) := by
  have hskip : ¬(stripChars line = [] ∨ (stripChars line).headD ' ' = '#') := by
    rintro (h | h)
    · rw [h] at hhead
      exact absurd hhead (by decide)
    · rw [hhead] at h
      exact absurd h (by decide)
  unfold serial_line_step
  rw [if_neg hskip, if_pos ⟨hhead, hlast⟩, hparse]
  simp

/-- C2 witness: the amended append-as-decoded behaviour instantiated at the
example frame holding -5 and 5000. -/
theorem dual_unclamped_append_c2_witness :
    serial_line_step 2000 ([], []) ("[-5,5000]".toList) =
      ([(-5 : Int)], [(5000 : Int)]) := by
  have h := dual_unclamped_append_c2 2000 [] [] ("[-5,5000]".toList) (-5) 5000
    (by decide) (by decide) (by decide)
  exact h.trans (by decide)

/-- C7: all three update_plot variants return the insufficient-data signal,
producing no range and no series, whenever the snapshot has fewer than 2
points. -/
theorem insufficient_data_c7 (times : List ℚ) (values ch0 ch1 : List Int)
    (h : times.length < 2) :
    update_plot times values = none ∧
    update_plot_single times values = none ∧
    update_plot_serial times ch0 ch1 = none := by
  refine ⟨?_, ?_, ?_⟩ <;>
    simp [update_plot, update_plot_single, update_plot_serial, h]

/-- C7 witness: the guard theorem instantiated at a one-point snapshot. -/
theorem insufficient_data_c7_witness :
    update_plot [3] [9] = none ∧
    update_plot_single [3] [9] = none ∧
    update_plot_serial [3] [9] [9] = none :=
  insufficient_data_c7 [3] [9] [9] [9] (by decide)

theorem interpAux_length (T : ℚ) (n : Nat) :
    ∀ (vs : List Int) (i : Nat), (interpAux T n i vs).length = vs.length := by
  intro vs
  induction vs with
  | nil => intro i; rfl
  | cons v vs ih => intro i; simp [interpAux, ih]

/-- Timestamp of the k-th entry produced by the batch loop started at
index i. -/
theorem interpAux_get_fst (T : ℚ) (n : Nat) :
    ∀ (vs : List Int) (i k : Nat) (hk : k < (interpAux T n i vs).length),
      ((interpAux T n i vs).get ⟨k, hk⟩).1 =
        T + ((i + k : Nat) : ℚ) * (1 / 10) / (n : ℚ) := by
  intro vs
  induction vs with
  | nil => intro i k hk; simp [interpAux] at hk
  | cons v vs ih =>
    intro i k hk
    cases k with
    | zero => simp [interpAux]
    | succ k =>
      have h := ih (i + 1) k (by
        simp only [interpAux, List.length_cons] at hk
        omega)
      simp only [interpAux, List.get_cons_succ] at h ⊢
      rw [h]
      have : i + 1 + k = i + (k + 1) := by omega
      rw [this]

/-- Timestamp of the last entry produced by the batch loop started at
index i. -/
theorem interpAux_getLastD_fst (T : ℚ) (n : Nat) :
    ∀ (vs : List Int) (i : Nat) (d : ℚ × Int), vs ≠ [] →
      ((interpAux T n i vs).getLastD d).1 =
        T + ((i + (vs.length - 1) : Nat) : ℚ) * (1 / 10) / (n : ℚ) := by
  intro vs
  induction vs with
  | nil => intro i d h; exact absurd rfl h
  | cons v vs ih =>
    intro i d h
    cases vs with
    | nil => simp [interpAux]
    | cons w ws =>
      have hstep :
          interpAux T n i (v :: w :: ws) =
            (T + (i : ℚ) * (1 / 10) / (n : ℚ), v) :: interpAux T n (i + 1) (w :: ws) := rfl
      rw [hstep, List.getLastD_cons, ih (i + 1) _ (by simp)]
      have : i + 1 + ((w :: ws).length - 1) = i + ((v :: w :: ws).length - 1) := by
        simp
        omega
      rw [this]

/-- C4: the batch interpolator stamps a non-empty batch of n values
arriving at T with the timestamps T + i * (0.1 / n): the result keeps the
batch length, its timestamps are strictly increasing, the first pair is
(T, first value), the last timestamp stays strictly below T + 0.1, and a
singleton batch maps to exactly (T, its value) with no division by
zero. -/
theorem add_data_batch_c4 (T : ℚ) (values : List Int) (hne : values ≠ []) :
    (add_data_batch T values).length = values.length ∧
    (add_data_batch T values).Pairwise (fun p q => p.1 < q.1) ∧
    (add_data_batch T values).headD (0, 0) = (T, values.headD 0) ∧
    ((add_data_batch T values).getLastD (0, 0)).1 < T + 1 / 10 ∧
    (values.length = 1 → add_data_batch T values = [(T, values.headD 0)]) := by
  have hn : 0 < values.length := List.length_pos.mpr hne
  have hnq : (0 : ℚ) < (values.length : ℚ) := by exact_mod_cast hn
  refine ⟨interpAux_length T values.length values 0, ?_, ?_, ?_, ?_⟩
  · rw [List.pairwise_iff_get]
    intro i j hij
    obtain ⟨i, hi⟩ := i
    obtain ⟨j, hj⟩ := j
    simp only [add_data_batch] at hi hj ⊢
    rw [interpAux_get_fst T values.length values 0 i hi,
      interpAux_get_fst T values.length values 0 j hj]
    simp only [Nat.zero_add]
    have hcast : ((i : Nat) : ℚ) < ((j : Nat) : ℚ) := by exact_mod_cast hij
    have hpos : (0 : ℚ) < (1 / 10) / (values.length : ℚ) := by positivity
    rw [mul_div_assoc, mul_div_assoc]
    exact add_lt_add_left (mul_lt_mul_of_pos_right hcast hpos) T
  · cases values with
    | nil => exact absurd rfl hne
    | cons v vs =>
      simp [add_data_batch, interpAux]
  · rw [add_data_batch, interpAux_getLastD_fst T values.length values 0 (0, 0) hne]
    simp only [Nat.zero_add]
    have hc : ((values.length - 1 : Nat) : ℚ) = (values.length : ℚ) - 1 :=
      Nat.cast_sub hn
    rw [hc]
    have key : ((values.length : ℚ) - 1) * (1 / 10) / (values.length : ℚ) < 1 / 10 := by
      rw [div_lt_iff₀ hnq]
      linarith
    linarith
  · intro h1
    cases values with
    | nil => exact absurd rfl hne
    | cons v vs =>
      cases vs with
      | nil =>
        simp [add_data_batch, interpAux]
      | cons w ws => simp at h1

/-- C4 witness: the interpolation theorem instantiated at a two-value batch
received at time 0 and at a singleton batch received at time 3. -/
theorem add_data_batch_c4_witness :
    (add_data_batch 0 [7, 8]).headD (0, 0) = ((0 : ℚ), (7 : Int)) ∧
    ((add_data_batch 0 [7, 8]).getLastD (0, 0)).1 < 0 + 1 / 10 ∧
    add_data_batch 3 [9] = [((3 : ℚ), (9 : Int))] := by
  have h2 := add_data_batch_c4 0 [7, 8] (by decide)
  have h1 := add_data_batch_c4 3 [9] (by decide)
  exact ⟨h2.2.2.1, h2.2.2.2.1, h1.2.2.2.2 (by decide)⟩

/-- C10: whenever the single-channel WebSocket handler forwards a batch to
the plot, that batch is non-empty, so the interpolation denominator is a
non-zero rational and the stamped batch has one pair per value — the
per-sample timestamp expression never divides by zero. -/
theorem nonempty_batch_c10 (cs : List Char) (vs : List Int)
    (h : handleSingleMessage cs = some vs) :
    1 ≤ vs.length ∧ ((vs.length : ℚ) ≠ 0) ∧
    (∀ T : ℚ, (add_data_batch T vs).length = vs.length) := by
  have hvs : vs = parse_hex_data cs ∧ parse_hex_data cs ≠ [] := by
    unfold handleSingleMessage at h
    by_cases h1 : stripChars cs = []
    · simp [h1] at h
    · by_cases h2 : parse_hex_data cs = []
      · simp [h1, h2] at h
      · simp [h1, h2] at h
        exact ⟨h.symm, h2⟩
  obtain ⟨hv, hne⟩ := hvs
  subst hv
  have hpos := List.length_pos.mpr hne
  refine ⟨hpos, ?_, ?_⟩
  · exact_mod_cast Nat.cast_ne_zero.mpr (by omega)
  · intro T
    exact interpAux_length T _ _ 0

/-- C10 witness: the handler theorem instantiated at the message 800,
which it forwards as the singleton batch 2048. -/
theorem nonempty_batch_c10_witness :
    1 ≤ ([2048] : List Int).length ∧
    ((([2048] : List Int).length : ℚ) ≠ 0) ∧
    (∀ T : ℚ, (add_data_batch T [2048]).length = ([2048] : List Int).length) :=
  nonempty_batch_c10 ("800".toList) [2048] (by decide)

/-- C8: for snapshots of at least 2 points, both window views produce the
x-series t_i - t_last + 10: entry i equals the i-th timestamp shifted so
the newest sample sits at x = 10, the last entry is exactly 10, and the
whole x-series is unchanged when every timestamp is shifted by the same
constant. -/
theorem window_alignment_c8 (times : List ℚ) (values : List Int)
    (h2 : 2 ≤ times.length) :
    Option.map PlotFrame.x_series (update_plot times values) = some (xSeries times) ∧
    Option.map PlotFrame.x_series (update_plot_single times values) = some (xSeries times) ∧
    (xSeries times).length = times.length ∧
    (∀ i : Nat, i < times.length →
      (xSeries times).getD i 0 = times.getD i 0 - times.getLastD 0 + 10) ∧
    (xSeries times).getLastD 0 = 10 ∧
    (∀ c : ℚ, xSeries (times.map (fun t => t + c)) = xSeries times) := by
  have hnot : ¬ times.length < 2 := by omega
  have hne : times ≠ [] := by
    intro h
    rw [h] at h2
    simp at h2
  obtain ⟨l, hl⟩ : ∃ l, times.getLast? = some l :=
    ⟨times.getLast hne, List.getLast?_eq_getLast _ hne⟩
  refine ⟨by simp [update_plot, hnot], by simp [update_plot_single, hnot],
    by simp [xSeries], ?_, ?_, ?_⟩
  · intro i hi
    have hsome : times[i]? = some times[i] := List.getElem?_eq_getElem hi
    simp [xSeries, List.getD_eq_getElem?_getD, hsome]
  · rw [xSeries, List.getLastD_eq_getLast?, List.getLast?_map, hl,
      List.getLastD_eq_getLast?, hl]
    simp
  · intro c
    have hshift : (times.map (fun t => t + c)).getLastD 0 = l + c := by
      rw [List.getLastD_eq_getLast?, List.getLast?_map, hl]
      rfl
    rw [xSeries, xSeries, hshift, List.map_map, List.getLastD_eq_getLast?, hl]
    have hfun : ((fun t : ℚ => t - (l + c) + 10) ∘ (fun t : ℚ => t + c)) =
        (fun t : ℚ => t - (some l).getD 0 + 10) := by
      funext t
      simp
    rw [hfun]

/-- C8 witness: the alignment theorem instantiated at the two-point
snapshot with timestamps 0 and one half, shifted by 5. -/
theorem window_alignment_c8_witness :
    (xSeries [0, 1 / 2]).getLastD 0 = 10 ∧
    xSeries (([0, 1 / 2] : List ℚ).map (fun t => t + 5)) = xSeries [0, 1 / 2] := by
  have h := window_alignment_c8 [0, 1 / 2] [1, 2] (by decide)
  exact ⟨h.2.2.2.2.1, h.2.2.2.2.2 5⟩

end EKG
